import Mathlib

/-
Verification of the canonicalization and constraint-generation core
(src/can/mod.rs).  The definitions below are a shallow embedding of that
module: each function named after a source item is translated from the
source.  Modules of the repository that are not part of the provided
source tree (scope, symbol, graph, parse AST, constrain, collections) are
reconstructed from the specification; every such definition carries a doc
comment beginning with the words Modelled from the spec.

General recursion in the source (the canonicalizer and the reference
walks) is embedded with an explicit fuel parameter; running out of fuel is
a distinguished outcome, and panics of the source are a distinguished
crash outcome.
-/

/-- Region is a source-span tag; pure metadata, modelled as a number. -/
abbrev Region : Type := Nat

/-- Located attaches a region to a value, as in region.rs usage. -/
structure Located (α : Type) where
  region : Nat
  value : α
  deriving DecidableEq, Repr

/-- Ident is a not-yet-resolved name as written in source. -/
inductive Ident where
  | unqualified (name : String)
  | qualified (path : String) (name : String)
  deriving DecidableEq, Repr

/-- SymId models the Symbol type: a globally unique flat identifier,
rendered as its qualified string. -/
abbrev SymId : Type := String

/-- Modelled from the spec: symbol.rs is not in the provided sources. A
symbol qualifies a source name with a path, joined by a dot. -/
def SymId.new (path : String) (name : String) : SymId :=
  path ++ ("." : String) ++ name

/-- Modelled from the spec: builds a symbol directly from written module
parts and a name, as SymId::from_parts does at the Var branch. -/
def SymId.from_parts (module_parts : List String) (name : String) : SymId :=
  if module_parts.isEmpty then name
  else SymId.new (String.intercalate (".") module_parts) name

/-- Modelled from the spec: ident.rs is not in the provided sources. An
ident built from written module parts is unqualified when the parts are
empty and qualified by the joined path otherwise. -/
def Ident.new (module_parts : List String) (name : String) : Ident :=
  if module_parts.isEmpty then Ident.unqualified name
  else Ident.qualified (String.intercalate (".") module_parts) name

/-- Modelled from the spec: scope.rs is not in the provided sources. A
scope maps idents to a symbol and region and carries a name prefix used to
mint symbols. Child blocks clone the map; values in the map are never read
by the surviving code paths, only key membership and the prefix are. -/
structure Scope where
  pfx : String
  idents : List (Ident × SymId × Nat)
  deriving Repr

/-- Modelled from the spec: minting a symbol for a name in this scope
prepends the scope prefix, as the Main$foo$ examples in the source
comments describe. -/
def Scope.symbol (scope : Scope) (name : String) : SymId :=
  scope.pfx ++ name

/-- Membership test on the scope map keys. -/
def Scope.containsKey (scope : Scope) (ident : Ident) : Bool :=
  scope.idents.any (fun p => decide (p.1 = ident))

/-- Insert an ordered-set element into a list-represented set, keeping
the existing order and ignoring duplicates. -/
def setInsert (xs : List String) (x : String) : List String :=
  if x ∈ xs then xs else xs ++ [x]

/-- Ordered union of list-represented sets: elements of the second set
are inserted into the first, left to right. -/
def listUnion (a b : List String) : List String :=
  b.foldl setInsert a

/-- References tracks three sets of symbols: locals read, functions
called, and globals read, as in procedure.rs usage. Sets are modelled as
duplicate-free lists to keep iteration order explicit. -/
structure References where
  locals : List SymId
  calls : List SymId
  globals : List SymId
  deriving DecidableEq, Repr

def References.new : References := ⟨[], [], []⟩

def References.union (a b : References) : References :=
  ⟨listUnion a.locals b.locals, listUnion a.calls b.calls, listUnion a.globals b.globals⟩

def References.has_local (r : References) (s : SymId) : Bool :=
  decide (s ∈ r.locals)

def References.insertLocal (r : References) (s : SymId) : References :=
  { r with locals := setInsert r.locals s }

def References.insertCall (r : References) (s : SymId) : References :=
  { r with calls := setInsert r.calls s }

def References.insertGlobal (r : References) (s : SymId) : References :=
  { r with globals := setInsert r.globals s }

/-- Operators of the operator module; Pizza is the pipe operator, the
other constructors stand for the remaining arithmetic operators. -/
inductive Op where
  | Pizza
  | Plus
  | Minus
  deriving DecidableEq, Repr

/-- Modelled from the spec: operator.rs is not in the provided sources.
Desugaring an operator yields the name of the function it denotes. -/
def Op.desugar : Op → String
  | .Pizza => ("Pizza.desugared")
  | .Plus => ("Num.plus")
  | .Minus => ("Num.minus")

/-- Argument side of a binary operator. -/
inductive ArgSide where
  | left
  | right
  deriving DecidableEq, Repr

/-- Reasons recorded on expectations, from types.rs usage. -/
inductive Reason where
  | ElemInList
  | OperatorArg (op : Op) (side : ArgSide)
  | OperatorRet (op : Op)
  deriving DecidableEq, Repr

/-- Modelled from the spec: types.rs is not in the provided sources. The
type tree as used by this module: type variables, builtin literal types,
the empty record, list types, and the hardcoded per-operator table types. -/
inductive Ty where
  | var (n : Nat)
  | int
  | flt
  | str
  | emptyRec
  | listT (t : Ty)
  | opLeft (op : Op)
  | opRight (op : Op)
  | opRet (op : Op)
  deriving DecidableEq, Repr

/-- The hardcoded argument and return types of an operator. -/
structure OpTypes where
  left : Ty
  right : Ty
  ret : Ty
  deriving DecidableEq, Repr

/-- Modelled from the spec: the fixed per-operator type table consulted
by the binary-operator branch. -/
def Ty.for_operator (op : Op) : OpTypes :=
  ⟨Ty.opLeft op, Ty.opRight op, Ty.opRet op⟩

/-- Expected type slot, from types.rs usage. -/
inductive Expected where
  | NoExpectation (t : Ty)
  | ForReason (r : Reason) (t : Ty) (region : Nat)
  deriving DecidableEq, Repr

def Expected.get_type : Expected → Ty
  | .NoExpectation t => t
  | .ForReason _ t _ => t

/-- Constraint tree, from types.rs usage: Eq, And, Let, Lookup and the
trivially satisfied constraint, here named CTrue. A Let carries rigid and
flex variables, assignment types, and two nested constraint slots. -/
inductive Constraint where
  | Eq (t : Ty) (e : Expected) (region : Nat)
  | And (cs : List Constraint)
  | Let (rigid_vars : List Nat) (flex_vars : List Nat)
      (assignment_types : List (SymId × Nat × Ty))
      (assignments_constraint : Constraint) (ret_constraint : Constraint)
  | Lookup (s : SymId) (e : Expected) (region : Nat)
  | CTrue

/-- Runtime errors carried by degraded canonical nodes, from problem.rs
usage. Payloads that the source takes from std parse errors are dropped. -/
inductive RuntimeError where
  | UnrecognizedConstant (li : Located Ident)
  | IntOutsideRange (raw : String)
  | FloatOutsideRange (raw : String)
  | InvalidHex (raw : String)
  | InvalidOctal (raw : String)
  | InvalidBinary (raw : String)
  | NoImplementation
  | CircularAssignment (idents : List (Located Ident)) (regions : List (Nat × Nat)) (retRegion : Nat)
  deriving DecidableEq, Repr

/-- Problems collected by the diagnostics sink, from problem.rs usage. -/
inductive Problem where
  | UnrecognizedConstant (li : Located Ident)
  | UnusedArgument (li : Located Ident)
  | UnusedAssignment (li : Located Ident)
  | CircularAssignment (idents : List (Located Ident))
  | RuntimeError (e : RuntimeError)
  deriving DecidableEq, Repr

/-- Canonical patterns, from pattern.rs usage: only identifier and
underscore survive the implemented paths. -/
inductive Pattern where
  | Identifier (v : Nat) (sym : SymId)
  | Underscore
  deriving DecidableEq, Repr

/-- Finite float values of the source are represented abstractly as
rationals; the f64 parse itself is a parameter of the embedding. -/
abbrev FloatVal : Type := Rat

/-- Canonical expressions, from expr.rs usage. -/
inductive Expr where
  | Int (n : Int)
  | Float (q : FloatVal)
  | Str (s : String)
  | EmptyRecord
  | EmptyList
  | ListE (v : Nat) (elems : List (Located Expr))
  | Var (v : Nat) (sym : SymId)
  | FunctionPointer (v : Nat) (sym : SymId)
  | Call (v : Nat) (fnRegion : Nat) (fn : Expr) (args : List (Located Expr))
  | Define (v : Nat) (assignments : List (Located Pattern × Located Expr)) (retE : Located Expr)
  | RuntimeError (e : RuntimeError)

/-- Procedure, from procedure.rs usage: the fields this module reads or
writes are the optional assigned name, the self-tail-recursion flag and
the captured references; argument patterns and body are irrelevant to the
verified properties and omitted. -/
structure Procedure where
  name : Option String
  is_self_tail_recursive : Bool
  references : References
  deriving DecidableEq, Repr

/-- Env, from env.rs usage: the home module name, the collected problems
and the procedure map. The declared-variants table is never read by the
surviving code paths and is omitted. -/
structure Env where
  home : String
  problems : List Problem
  procedures : List (SymId × Procedure)

/-- Appends a problem to the accumulating list, as Env::problem does. -/
def Env.problem (env : Env) (p : Problem) : Env :=
  { env with problems := env.problems ++ [p] }

/-- Output bundles references, tail-call status and a constraint. -/
structure Output where
  references : References
  tail_call : Option SymId
  constraint : Constraint

def Output.new (c : Constraint) : Output :=
  ⟨References.new, none, c⟩

/-- Subs is modelled by its next fresh type-variable index. -/
abbrev Subs : Type := Nat

/-- Allocates a fresh flexible type variable. -/
def mkFlexVar (subs : Subs) : Nat × Subs :=
  (subs, subs + 1)

/-- Outcomes of embedded source computations: a value, a panic of the
source (crash, with the panic message), or exhaustion of the explicit
fuel that stands in for unbounded recursion. -/
inductive CanResult (α : Type) where
  | ok (a : α)
  | crash (msg : String)
  | outOfFuel
  deriving Repr

instance {α : Type} [DecidableEq α] : DecidableEq (CanResult α) := fun a b =>
  match a, b with
  | .ok x, .ok y => if h : x = y then .isTrue (by rw [h]) else .isFalse (by simp [h])
  | .crash m, .crash m' => if h : m = m' then .isTrue (by rw [h]) else .isFalse (by simp [h])
  | .outOfFuel, .outOfFuel => .isTrue rfl
  | .ok _, .crash _ => .isFalse (by simp)
  | .ok _, .outOfFuel => .isFalse (by simp)
  | .crash _, .ok _ => .isFalse (by simp)
  | .crash _, .outOfFuel => .isFalse (by simp)
  | .outOfFuel, .ok _ => .isFalse (by simp)
  | .outOfFuel, .crash _ => .isFalse (by simp)

def CanResult.bind {α β : Type} : CanResult α → (α → CanResult β) → CanResult β
  | .ok a, f => f a
  | .crash m, _ => .crash m
  | .outOfFuel, _ => .outOfFuel

instance : Monad CanResult where
  pure := .ok
  bind := CanResult.bind

/-- Removes every underscore digit separator, as the replace call does
before each numeric parse. -/
def strip_underscores (s : String) : String :=
  String.mk (s.data.filter (fun c => decide (c ≠ '_')))

/-- Value of one digit character, accepting both letter cases. -/
def digitValue (c : Char) : Option Nat :=
  if ('0' ≤ c ∧ c ≤ '9') then some (c.toNat - '0'.toNat)
  else if ('a' ≤ c ∧ c ≤ 'f') then some (c.toNat - 'a'.toNat + 10)
  else if ('A' ≤ c ∧ c ≤ 'F') then some (c.toNat - 'A'.toNat + 10)
  else none

/-- Folds a digit string in the given radix; fails on an invalid digit. -/
def parseDigits (radix : Nat) : List Char → Nat → Option Nat
  | [], acc => some acc
  | c :: cs, acc =>
    match digitValue c with
    | some d => if d < radix then parseDigits radix cs (acc * radix + d) else none
    | none => none

/-- Modelled from the spec: the std i64 parse in the given radix, with an
optional sign, at least one digit, and the asymmetric i64 range check. -/
def parse_signed_radix (radix : Nat) (s : String) : Option Int :=
  match s.data with
  | [] => none
  | '+' :: rest =>
    if rest.isEmpty then none
    else (parseDigits radix rest 0).bind (fun n =>
      if n ≤ 2 ^ 63 - 1 then some (n : Int) else none)
  | '-' :: rest =>
    if rest.isEmpty then none
    else (parseDigits radix rest 0).bind (fun n =>
      if n ≤ 2 ^ 63 then some (-(n : Int)) else none)
  | cs =>
    (parseDigits radix cs 0).bind (fun n =>
      if n ≤ 2 ^ 63 - 1 then some (n : Int) else none)

/-- Modelled from the spec: constrain.rs is not in the provided sources.
A literal produces an Eq constraint tying a literal-derived type to the
expected type. -/
def constrain_int_literal (expected : Expected) (region : Nat) : Constraint :=
  Constraint.Eq Ty.int expected region

/-- Modelled from the spec: the float literal constraint. -/
def constrain_float_literal (expected : Expected) (region : Nat) : Constraint :=
  Constraint.Eq Ty.flt expected region

/-- Modelled from the spec: the string type of constrain.rs. -/
def constrain_str_type : Ty := Ty.str

/-- Modelled from the spec: the empty list type over a fresh variable. -/
def constrain_empty_list_type (v : Nat) : Ty := Ty.listT (Ty.var v)

/-- Modelled from the spec: the list type constructor application. -/
def constrain_list_type (t : Ty) : Ty := Ty.listT t

/-- Translation of int_from_parsed: underscores are stripped, the decimal
i64 parse is attempted, and failure degrades to a RuntimeError node with
an IntOutsideRange problem and a CTrue constraint. Subs is unchanged by
the modelled literal constraint and therefore not returned. -/
def int_from_parsed (raw : String) (env : Env) (expected : Expected) (region : Nat) :
    (Constraint × Expr) × Env :=
  match parse_signed_radix 10 (strip_underscores raw) with
  | some i => ((constrain_int_literal expected region, Expr.Int i), env)
  | none =>
    ((Constraint.CTrue, Expr.RuntimeError (RuntimeError.IntOutsideRange raw)),
      env.problem (Problem.RuntimeError (RuntimeError.IntOutsideRange raw)))

/-- Translation of hex_from_parsed. -/
def hex_from_parsed (raw : String) (env : Env) (expected : Expected) (region : Nat) :
    (Constraint × Expr) × Env :=
  match parse_signed_radix 16 (strip_underscores raw) with
  | some i => ((constrain_int_literal expected region, Expr.Int i), env)
  | none =>
    ((Constraint.CTrue, Expr.RuntimeError (RuntimeError.InvalidHex raw)),
      env.problem (Problem.RuntimeError (RuntimeError.InvalidHex raw)))

/-- Translation of oct_from_parsed. -/
def oct_from_parsed (raw : String) (env : Env) (expected : Expected) (region : Nat) :
    (Constraint × Expr) × Env :=
  match parse_signed_radix 8 (strip_underscores raw) with
  | some i => ((constrain_int_literal expected region, Expr.Int i), env)
  | none =>
    ((Constraint.CTrue, Expr.RuntimeError (RuntimeError.InvalidOctal raw)),
      env.problem (Problem.RuntimeError (RuntimeError.InvalidOctal raw)))

/-- Translation of bin_from_parsed. -/
def bin_from_parsed (raw : String) (env : Env) (expected : Expected) (region : Nat) :
    (Constraint × Expr) × Env :=
  match parse_signed_radix 2 (strip_underscores raw) with
  | some i => ((constrain_int_literal expected region, Expr.Int i), env)
  | none =>
    ((Constraint.CTrue, Expr.RuntimeError (RuntimeError.InvalidBinary raw)),
      env.problem (Problem.RuntimeError (RuntimeError.InvalidBinary raw)))

/-- Translation of float_from_parsed; the f64 parse composed with the
is_finite guard is the parameter fp, since floating point is not
modelled. Underscores are stripped before fp is consulted. -/
def float_from_parsed (fp : String → Option FloatVal) (raw : String) (env : Env)
    (expected : Expected) (region : Nat) : (Constraint × Expr) × Env :=
  match fp (strip_underscores raw) with
  | some q => ((constrain_float_literal expected region, Expr.Float q), env)
  | none =>
    ((Constraint.CTrue, Expr.RuntimeError (RuntimeError.FloatOutsideRange raw)),
      env.problem (Problem.RuntimeError (RuntimeError.FloatOutsideRange raw)))

/-- Translation of resolve_ident: a raw scope hit resolves directly with
a locals or globals insertion; an unqualified miss retries qualified by
the home module; otherwise the original ident is returned unchanged. -/
def resolve_ident (env : Env) (scope : Scope) (ident : Ident) (references : References) :
    Except Ident SymId × References :=
  if scope.containsKey ident then
    match ident with
    | .unqualified name =>
      (Except.ok (scope.symbol name), references.insertLocal (scope.symbol name))
    | .qualified path name =>
      (Except.ok (SymId.new path name), references.insertGlobal (SymId.new path name))
  else
    match ident with
    | .unqualified name =>
      if scope.containsKey (Ident.qualified env.home name) then
        (Except.ok (SymId.new env.home name), references.insertGlobal (SymId.new env.home name))
      else
        (Except.error (Ident.unqualified name), references)
    | .qualified path name =>
      (Except.error (Ident.qualified path name), references)

/-- Restatement of the resolution algorithm in the words of the spec, for
comparison with the translated resolve_ident: step one resolves a raw hit
directly, step two retries an unqualified name under the home module,
step three fails with the original ident. -/
def resolve_ident_spec (env : Env) (scope : Scope) (ident : Ident) (references : References) :
    Except Ident SymId × References :=
  match ident with
  | .unqualified name =>
    if scope.containsKey (Ident.unqualified name) then
      (Except.ok (scope.symbol name), references.insertLocal (scope.symbol name))
    else if scope.containsKey (Ident.qualified env.home name) then
      (Except.ok (SymId.new env.home name), references.insertGlobal (SymId.new env.home name))
    else
      (Except.error (Ident.unqualified name), references)
  | .qualified path name =>
    if scope.containsKey (Ident.qualified path name) then
      (Except.ok (SymId.new path name), references.insertGlobal (SymId.new path name))
    else
      (Except.error (Ident.qualified path name), references)

/-- Map from assigned symbols to the located source ident and recorded
references, the refs_by_assignment map of can_defs. -/
abbrev RefMap : Type := List (SymId × Located Ident × References)

/-- Map from assigned symbols to the canonical pattern and expression,
the can_assignments_by_symbol map of can_defs; iteration follows
insertion order. -/
abbrev AssignMap : Type := List (SymId × Located Pattern × Located Expr)

abbrev ProcMap : Type := List (SymId × Procedure)

def lookupRefMap (m : RefMap) (s : SymId) : Option (Located Ident × References) :=
  (m.find? (fun p => decide (p.1 = s))).map (fun p => p.2)

def insertRefMap (m : RefMap) (s : SymId) (v : Located Ident × References) : RefMap :=
  (s, v) :: m.filter (fun p => decide (p.1 ≠ s))

/-- Applies a function to the references stored under a key when the key
is present, as the entry-and-modify call of can_defs does. -/
def modifyRefMap (m : RefMap) (s : SymId) (f : References → References) : RefMap :=
  m.map (fun p => if p.1 = s then (p.1, p.2.1, f p.2.2) else p)

def lookupAssignMap (m : AssignMap) (s : SymId) : Option (Located Pattern × Located Expr) :=
  (m.find? (fun p => decide (p.1 = s))).map (fun p => p.2)

def insertAssignMap (m : AssignMap) (s : SymId) (v : Located Pattern × Located Expr) : AssignMap :=
  if m.any (fun p => decide (p.1 = s)) then
    m.map (fun p => if p.1 = s then (s, v) else p)
  else
    m ++ [(s, v)]

def lookupProc (m : ProcMap) (s : SymId) : Option Procedure :=
  (m.find? (fun p => decide (p.1 = s))).map (fun p => p.2)

/-- Removing a key from the procedure map, returning the removed value,
as the remove-then-unwrap of the closure-naming step does. -/
def removeProc (m : ProcMap) (s : SymId) : Option (Procedure × ProcMap) :=
  (lookupProc m s).map (fun p => (p, m.filter (fun q => decide (q.1 ≠ s))))

def insertProc (m : ProcMap) (s : SymId) (p : Procedure) : ProcMap :=
  (s, p) :: m.filter (fun q => decide (q.1 ≠ s))

/-- Source AST patterns, as consumed by this module. Modelled from the
spec: parse/ast.rs is not in the provided sources; variants whose
payloads are never read in this module are carried without payload. -/
inductive AstPattern where
  | Identifier (name : String)
  | QualifiedIdentifier (name : String)
  | Apply
  | RecordDestructure
  | SpaceBefore (p : AstPattern)
  | SpaceAfter (p : AstPattern)
  | Variant
  | IntLiteral (s : String)
  | HexIntLiteral (s : String)
  | OctalIntLiteral (s : String)
  | BinaryIntLiteral (s : String)
  | FloatLiteral (s : String)
  | StrLiteral (s : String)
  | EmptyRecordLiteral
  | Malformed (s : String)
  | Underscore
  deriving DecidableEq, Repr

mutual
/-- Source AST expressions, as consumed by this module. Modelled from the
spec: parse/ast.rs is not in the provided sources. Located children are
carried as a region argument next to the child; variants the module
unconditionally aborts on are carried without their payloads. -/
inductive AstExpr where
  | Int (s : String)
  | Float (s : String)
  | Record (fields : List Unit)
  | Str (s : String)
  | ListL (elems : List (Nat × AstExpr))
  | Apply (fnRegion : Nat) (fn : AstExpr) (args : List (Nat × AstExpr))
  | Operator (leftRegion : Nat) (left : AstExpr) (opRegion : Nat) (op : Op)
      (rightRegion : Nat) (right : AstExpr)
  | Var (module_parts : List String) (name : String)
  | Defs (defs : List AstDef) (retRegion : Nat) (ret : AstExpr)
  | Closure (args : List (Nat × AstPattern)) (bodyRegion : Nat) (body : AstExpr)
  | SpaceBefore (e : AstExpr)
  | SpaceAfter (e : AstExpr)
  | BlockStr
  | Field
  | QualifiedField
  | AccessorFunction
  | If
  | Case
  | Variant
  | MalformedIdent (s : String)
  | MalformedClosure
  | PrecedenceConflict
  | AssignField
  | BinaryInt (s : String)
  | HexInt (s : String)
  | OctalInt (s : String)

/-- Source AST definitions inside a Defs block. The annotation payloads
are never read on surviving paths and are dropped. -/
inductive AstDef where
  | AnnotationOnly (r : Nat)
  | BodyOnly (patternRegion : Nat) (pattern : AstPattern) (exprRegion : Nat) (expr : AstExpr)
  | AnnotatedBody (r : Nat)
end

/-- Translation of union_pairs: inserts each pair into the ident map.
The map values are never read afterwards, so insertion is modelled by
prepending. -/
def union_pairs (m : List (Ident × SymId × Nat)) (pairs : List (Ident × SymId × Nat)) :
    List (Ident × SymId × Nat) :=
  pairs.foldl (fun acc p => p :: acc) m

/-- Translation of add_idents_from_pattern: the identifiers bound by one
pattern together with their minted symbol and region. Panicking arms of
the source are crashes. -/
def add_idents_from_pattern (region : Nat) (pattern : AstPattern) (scope : Scope) :
    CanResult (List (Ident × SymId × Nat)) :=
  match pattern with
  | .Identifier name => .ok [(Ident.unqualified name, scope.symbol name, region)]
  | .QualifiedIdentifier _ => .crash ("TODO implement QualifiedIdentifier pattern.")
  | .Apply => .crash ("TODO implement Apply pattern.")
  | .RecordDestructure => .crash ("TODO implement RecordDestructure pattern in add_idents_from_pattern.")
  | .SpaceBefore p => add_idents_from_pattern region p scope
  | .SpaceAfter p => add_idents_from_pattern region p scope
  | .Variant => .ok []
  | .IntLiteral _ => .ok []
  | .HexIntLiteral _ => .ok []
  | .OctalIntLiteral _ => .ok []
  | .BinaryIntLiteral _ => .ok []
  | .FloatLiteral _ => .ok []
  | .StrLiteral _ => .ok []
  | .EmptyRecordLiteral => .ok []
  | .Malformed _ => .ok []
  | .Underscore => .ok []

/-- Translation of idents_from_patterns over a list of located patterns. -/
def idents_from_patterns (loc_patterns : List (Nat × AstPattern)) (scope : Scope) :
    CanResult (List (Ident × SymId × Nat)) :=
  match loc_patterns with
  | [] => .ok []
  | (r, p) :: rest => do
    let here ← add_idents_from_pattern r p scope
    let there ← idents_from_patterns rest scope
    pure (here ++ there)

/-- Translation of remove_idents: removes the idents bound by a pattern
from an ident map. Panicking arms of the source are crashes. -/
def remove_idents (pattern : AstPattern) (idents : List (Ident × SymId × Nat)) :
    CanResult (List (Ident × SymId × Nat)) :=
  match pattern with
  | .Identifier name => .ok (idents.filter (fun p => decide (p.1 ≠ Ident.unqualified name)))
  | .QualifiedIdentifier _ => .crash ("TODO implement QualifiedIdentifier pattern in remove_idents.")
  | .Apply => .crash ("TODO implement Apply pattern in remove_idents.")
  | .RecordDestructure => .crash ("TODO implement RecordDestructure pattern in remove_idents.")
  | .SpaceBefore p => remove_idents p idents
  | .SpaceAfter p => remove_idents p idents
  | .Variant => .ok idents
  | .IntLiteral _ => .ok idents
  | .HexIntLiteral _ => .ok idents
  | .OctalIntLiteral _ => .ok idents
  | .BinaryIntLiteral _ => .ok idents
  | .FloatLiteral _ => .ok idents
  | .StrLiteral _ => .ok idents
  | .EmptyRecordLiteral => .ok idents
  | .Malformed _ => .ok idents
  | .Underscore => .ok idents

/-- Modelled from the spec: pattern.rs is not in the provided sources.
Canonicalizing a binding pattern resolves an identifier pattern to a
canonical identifier pattern carrying a fresh variable and the symbol
minted from the scope prefix; other implemented patterns pass through,
unimplemented ones abort in the source. Shadowing detection is not
modelled. -/
def canonicalize_pattern (scope : Scope) (subs : Subs) (region : Nat) (pattern : AstPattern)
    (shadowable_idents : List (Ident × SymId × Nat)) :
    CanResult (Located Pattern × Subs) :=
  match pattern with
  | .Identifier name =>
    match mkFlexVar subs with
    | (v, subs) => .ok (⟨region, Pattern.Identifier v (scope.symbol name)⟩, subs)
  | .Underscore => .ok (⟨region, Pattern.Underscore⟩, subs)
  | .SpaceBefore p => canonicalize_pattern scope subs region p shadowable_idents
  | .SpaceAfter p => canonicalize_pattern scope subs region p shadowable_idents
  | _ => .crash ("TODO canonicalize this pattern")

/-- Translation of PatternState::add_pattern restricted to its effect on
assignment_types: an identifier inserts its symbol at the expected type,
an underscore does nothing, anything else aborts in the source. -/
def pattern_state_add (scope : Scope) (region : Nat) (pattern : AstPattern)
    (expected : Expected) : CanResult (List (SymId × Nat × Ty)) :=
  match pattern with
  | .Identifier name => .ok [(scope.symbol name, region, expected.get_type)]
  | .Underscore => .ok []
  | _ => .crash ("TODO other patterns")

/-- Insert into an assignment-types association list, replacing an
existing entry in place and appending a fresh one. -/
def insertSymTy (m : List (SymId × Nat × Ty)) (s : SymId) (v : Nat × Ty) :
    List (SymId × Nat × Ty) :=
  if m.any (fun p => decide (p.1 = s)) then
    m.map (fun p => if p.1 = s then (s, v) else p)
  else
    m ++ [(s, v)]

/-- Translation of add_pattern_to_lookup_types. -/
def add_pattern_to_lookup_types (scope : Scope) (region : Nat) (pattern : AstPattern)
    (lookup_types : List (SymId × Nat × Ty)) (expr_type : Ty) :
    CanResult (List (SymId × Nat × Ty)) :=
  match pattern with
  | .Identifier name => .ok (insertSymTy lookup_types (scope.symbol name) (region, expr_type))
  | _ => .crash ("TODO constrain patterns other than Identifier")

/-- Argument selector for the successor walk: walking from a references
record corresponds to local_successors, walking from a called symbol to
call_successors. -/
inductive SuccArg where
  | fromRefs (refs : References)
  | fromCall (s : SymId)

/-- Fueled embedding of the mutually recursive local_successors and
call_successors. The source admits in a comment that this pair can loop
forever on mutually referencing procedures; fuel exhaustion yields the
empty set, and the fuel used at call sites is large enough for every
path exercised here. -/
def successors_walk (procedures : ProcMap) : Nat → SuccArg → List SymId
  | 0, _ => []
  | n + 1, .fromRefs refs =>
    refs.calls.foldl (fun acc c => listUnion acc (successors_walk procedures n (.fromCall c))) refs.locals
  | n + 1, .fromCall c =>
    match lookupProc procedures c with
    | none => []
    | some procedure => setInsert (successors_walk procedures n (.fromRefs procedure.references)) c

/-- Translation of local_successors, with fuel. -/
def local_successors (fuel : Nat) (references : References) (procedures : ProcMap) : List SymId :=
  successors_walk procedures fuel (.fromRefs references)

/-- Translation of call_successors, with fuel. -/
def call_successors (fuel : Nat) (s : SymId) (procedures : ProcMap) : List SymId :=
  successors_walk procedures fuel (.fromCall s)

/-- Mode selector for the reference-graph walk: references_from_local or
references_from_call. -/
inductive RMode where
  | fromLocal
  | fromCall
  deriving DecidableEq, Repr

/-- One iteration sequence of the for-loops inside the reference walks:
each symbol is recursed into when not yet visited and its result unioned
into the answer, and the symbol is then inserted into the locals or the
calls of the answer. -/
def walk_items (recF : SymId → Finset SymId → CanResult (References × Finset SymId))
    (intoCalls : Bool) :
    List SymId → References × Finset SymId → CanResult (References × Finset SymId)
  | [], acc => .ok acc
  | x :: xs, (answer, visited) =>
    if x ∈ visited then
      walk_items recF intoCalls xs
        ((if intoCalls then answer.insertCall x else answer.insertLocal x), visited)
    else
      match recF x visited with
      | .ok (other, visited) =>
        walk_items recF intoCalls xs
          ((if intoCalls then (answer.union other).insertCall x
            else (answer.union other).insertLocal x), visited)
      | .crash m => .crash m
      | .outOfFuel => .outOfFuel

/-- Fueled embedding of the mutually recursive references_from_local and
references_from_call. A symbol is marked visited before its references
are walked; a local symbol missing from refs_by_assignment hits the
unreachable branch of the source, which is a crash; a call symbol missing
from the procedure map yields empty references. -/
def refs_walk (rba : RefMap) (procedures : ProcMap) :
    Nat → RMode → SymId → Finset SymId → CanResult (References × Finset SymId)
  | 0, _, _, _ => .outOfFuel
  | n + 1, .fromLocal, s, visited =>
    match lookupRefMap rba s with
    | none => .crash ("unreachable reached: local symbol missing from refs_by_assignment")
    | some (_, refs) => do
      let visited := insert s visited
      let acc ← walk_items (fun x v => refs_walk rba procedures n .fromLocal x v) false
        refs.locals (References.new, visited)
      walk_items (fun x v => refs_walk rba procedures n .fromCall x v) true refs.calls acc
  | n + 1, .fromCall, s, visited =>
    match lookupProc procedures s with
    | none => .ok (References.new, visited)
    | some procedure => do
      let visited := insert s visited
      let acc ← walk_items (fun x v => refs_walk rba procedures n .fromLocal x v) false
        procedure.references.locals (procedure.references, visited)
      walk_items (fun x v => refs_walk rba procedures n .fromCall x v) true
        procedure.references.calls acc

/-- Translation of references_from_local, with fuel. -/
def references_from_local (rba : RefMap) (procedures : ProcMap) (fuel : Nat) (s : SymId)
    (visited : Finset SymId) : CanResult (References × Finset SymId) :=
  refs_walk rba procedures fuel .fromLocal s visited

/-- Translation of references_from_call, with fuel. -/
def references_from_call (rba : RefMap) (procedures : ProcMap) (fuel : Nat) (s : SymId)
    (visited : Finset SymId) : CanResult (References × Finset SymId) :=
  refs_walk rba procedures fuel .fromCall s visited

/-- Translation of sort_cyclic_idents: finds the first ident of
ordered_idents that occurs in the cyclic list and rotates the cyclic
list, preserving its order, so that it starts there. The unwrap of the
source is the none case. -/
def sort_cyclic_idents (loc_idents : List (Located Ident)) (ordered_idents : List Ident) :
    Option (List (Located Ident)) :=
  match ordered_idents.find? (fun ident =>
      loc_idents.any (fun li => decide (li.value = ident))) with
  | none => none
  | some first_ident =>
    let st := loc_idents.foldl (fun (st : Bool × List (Located Ident) × List (Located Ident)) li =>
      match st with
      | (encountered, answer, endAcc) =>
        if encountered then (true, answer ++ [li], endAcc)
        else if decide (li.value = first_ident) then (true, answer ++ [li], endAcc)
        else (false, answer, endAcc ++ [li])) (false, [], [])
    some (st.2.1 ++ st.2.2)

/-- Modelled from the spec: graph.rs is not in the provided sources. One
step of cycle-node search: follow, within the remaining symbols, the
first successor of the current symbol until a symbol repeats; that symbol
lies on a cycle. -/
def find_cycle_node (successors : SymId → List SymId) (remaining : List SymId) :
    Nat → SymId → List SymId → SymId
  | 0, cur, _ => cur
  | n + 1, cur, seen =>
    if cur ∈ seen then cur
    else
      match (successors cur).find? (fun s => decide (s ∈ remaining)) with
      | none => cur
      | some nxt => find_cycle_node successors remaining n nxt (cur :: seen)

/-- Modelled from the spec: repeatedly emits a symbol none of whose
successors is still pending; when no symbol is ready, a symbol on a cycle
is reported. The returned list is in reverse dependency order, so that
the caller reverses it into initialization order. -/
def topo_go (successors : SymId → List SymId) : Nat → List SymId → List SymId →
    Except SymId (List SymId)
  | 0, remaining, acc =>
    match remaining with
    | [] => .ok acc
    | x :: _ => .error (find_cycle_node successors remaining (remaining.length + 1) x [])
  | n + 1, remaining, acc =>
    match remaining with
    | [] => .ok acc
    | x :: _ =>
      match remaining.find? (fun y => (successors y).all (fun s => decide (s ∉ remaining))) with
      | none => .error (find_cycle_node successors remaining (remaining.length + 1) x [])
      | some y => topo_go successors n (remaining.filter (fun z => decide (z ≠ y))) (y :: acc)

/-- Modelled from the spec: topological sort over a successor function;
failure returns a node known to be part of a cycle. -/
def topological_sort (nodes : List SymId) (successors : SymId → List SymId) :
    Except SymId (List SymId) :=
  topo_go successors (nodes.length + 1) nodes []

/-- Modelled from the spec: symbols reachable from a frontier in at most
the given number of expansion rounds. -/
def reach_go (successors : SymId → List SymId) : Nat → List SymId → List SymId
  | 0, acc => acc
  | n + 1, acc =>
    let nxt := acc.foldl (fun a s => listUnion a (successors s)) acc
    if nxt.length = acc.length then acc else reach_go successors n nxt

/-- Modelled from the spec: the strongly connected component of a node,
via reachability both ways; the caller reverses the returned list. -/
def strongly_connected_component (node : SymId) (successors : SymId → List SymId)
    (fuel : Nat) : List SymId :=
  let reach := reach_go successors fuel [node]
  reach.filter (fun m => decide (node ∈ reach_go successors fuel [m]))

/-- Type of the recursive canonicalizer: environment, variable allocator,
scope, region, expression and expected type to a located canonical
expression with its Output, plus the updated environment and allocator. -/
abbrev CanonFn : Type :=
  Env → Subs → Scope → Nat → AstExpr → Expected → CanResult ((Located Expr × Output) × Env × Subs)

/-- Translation of the element loop of the nonempty-list branch: each
element gets a fresh variable, an Eq constraint ties the shared list
variable to it with the ElemInList reason, the element is canonicalized
against its own variable under NoExpectation, and references are
unioned. -/
def canonicalize_elems (recF : CanonFn) (scope : Scope) (listRegion : Nat) (listType : Ty) :
    List (Nat × AstExpr) → (List (Located Expr) × List Constraint × References) → Env → Subs →
    CanResult ((List (Located Expr) × List Constraint × References) × Env × Subs)
  | [], acc, env, subs => .ok (acc, env, subs)
  | (r, e) :: rest, (can_elems, constraints, references), env, subs =>
    match mkFlexVar subs with
    | (elem_var, subs) =>
      match recF env subs scope r e (Expected.NoExpectation (Ty.var elem_var)) with
      | .ok ((can_expr, elem_out), env, subs) =>
        canonicalize_elems recF scope listRegion listType rest
          (can_elems ++ [can_expr],
            constraints ++
              [Constraint.Eq listType
                (Expected.ForReason Reason.ElemInList (Ty.var elem_var) listRegion) listRegion,
                elem_out.constraint],
            references.union elem_out.references) env subs
      | .crash m => .crash m
      | .outOfFuel => .outOfFuel

/-- Info of can_defs: variables, constraints and assignment types
accumulated for one generalization layer. -/
structure Info where
  vars : List Nat
  constraints : List Constraint
  assignment_types : List (SymId × Nat × Ty)

def Info.empty : Info := ⟨[], [], []⟩

/-- Translation of the tail of the per-definition loop of can_defs, after
the body has been canonicalized: the pattern is canonicalized, a plain
identifier bound to a function pointer renames the generated procedure to
the source name, sets its self-tail-recursion flag iff the tail call of
the body is the assigned symbol, strips the assigned symbol from the
recorded locals of an existing entry, and records empty references for
the renamed assignment; every bound ident is then recorded in
refs_by_assignment and in can_assignments_by_symbol. -/
def process_def_tail (env : Env) (subs : Subs) (scope : Scope) (patternRegion : Nat)
    (pattern : AstPattern) (loc_can_expr : Located Expr) (can_output : Output)
    (refMap : RefMap) (assignMap : AssignMap) :
    CanResult ((RefMap × AssignMap) × Env × Subs) := do
  let shadowable_idents ← remove_idents pattern scope.idents
  let (loc_can_pattern, subs) ← canonicalize_pattern scope subs patternRegion pattern shadowable_idents
  let branch : CanResult (Expr × Option SymId × Env × Subs × RefMap) :=
    match pattern, loc_can_pattern.value, loc_can_expr.value with
    | .Identifier name, .Identifier _ assigned_symbol, .FunctionPointer _ symbol =>
      match removeProc env.procedures symbol with
      | none => .crash ("unwrap failed: generated closure symbol missing from procedures")
      | some (procedure, procs) =>
        let procedure :=
          { procedure with
            name := some name,
            is_self_tail_recursive :=
              match can_output.tail_call with
              | none => false
              | some s => decide (s = assigned_symbol) }
        let procs := insertProc procs assigned_symbol procedure
        let refMap := modifyRefMap refMap assigned_symbol (fun refs =>
          { refs with locals := refs.locals.filter (fun l => decide (l ≠ assigned_symbol)) })
        match mkFlexVar subs with
        | (v, subs) =>
          .ok (Expr.Var v assigned_symbol, some assigned_symbol,
            { env with procedures := procs }, subs, refMap)
    | _, _, _ => .ok (loc_can_expr.value, none, env, subs, refMap)
  let (can_expr, renamed_closure_assignment, env, subs, refMap) ← branch
  let assigned ← idents_from_patterns [(patternRegion, pattern)] scope
  let folded := assigned.foldl
    (fun (acc : RefMap × List SymId) p =>
      match p with
      | (ident, symbol, region) =>
        let refs :=
          if renamed_closure_assignment = some symbol then References.new
          else can_output.references
        (insertRefMap acc.1 symbol (⟨region, ident⟩, refs), acc.2 ++ [symbol]))
    (refMap, [])
  let refMap := folded.1
  let assignMap := folded.2.foldl
    (fun am symbol =>
      insertAssignMap am symbol (loc_can_pattern, ⟨loc_can_expr.region, can_expr⟩)) assignMap
  .ok ((refMap, assignMap), env, subs)

/-- Translation of the per-definition loop of can_defs: an
annotation-only definition yields an inert NoImplementation placeholder
with a CTrue constraint and records nothing; a body definition allocates
pattern and body variables, records the pattern type, canonicalizes the
body against its fresh variable, pushes the per-binding Let constraint,
and runs the recording tail; an annotated body aborts in the source. -/
def can_defs_loop (recF : CanonFn) (scope : Scope) :
    List AstDef → (Info × RefMap × AssignMap) → Env → Subs →
    CanResult ((Info × RefMap × AssignMap) × Env × Subs)
  | [], st, env, subs => .ok (st, env, subs)
  | d :: rest, (flex_info, refMap, assignMap), env, subs =>
    match d with
    | .AnnotationOnly _ =>
      can_defs_loop recF scope rest (flex_info, refMap, assignMap) env subs
    | .BodyOnly patternRegion pattern exprRegion body =>
      (match mkFlexVar subs with
      | (expr_var, subs) =>
        match mkFlexVar subs with
        | (pattern_var, subs) => do
          let expr_type := Ty.var expr_var
          let pattern_type := Ty.var pattern_var
          let flex_info := { flex_info with vars := flex_info.vars ++ [pattern_var] }
          let state_assignment_types ←
            pattern_state_add scope patternRegion pattern (Expected.NoExpectation pattern_type)
          let def_constraint := Constraint.And []
          let flex_assignment_types ←
            add_pattern_to_lookup_types scope patternRegion pattern flex_info.assignment_types expr_type
          let flex_info := { flex_info with assignment_types := flex_assignment_types }
          let ((loc_can_expr, can_output), env, subs) ←
            recF env subs scope exprRegion body (Expected.NoExpectation expr_type)
          let flex_info :=
            { flex_info with
              constraints := flex_info.constraints ++
                [Constraint.Let [] [] state_assignment_types def_constraint can_output.constraint] }
          let ((refMap, assignMap), env, subs) ←
            process_def_tail env subs scope patternRegion pattern loc_can_expr can_output refMap assignMap
          can_defs_loop recF scope rest (flex_info, refMap, assignMap) env subs)
    | .AnnotatedBody _ => .crash ("TODO handle annotated def")

/-- One step of the loop that unions into the Output the full reference
closure of each starting symbol, sharing the visited set, as the two
loops after the return expression of can_defs do. -/
def defs_walk (rba : RefMap) (procedures : ProcMap) (fuel : Nat) (mode : RMode) :
    List SymId → References → Finset SymId → CanResult (References × Finset SymId)
  | [], references, visited => .ok (references, visited)
  | s :: rest, references, visited => do
    let (refs, visited) ← refs_walk rba procedures fuel mode s visited
    defs_walk rba procedures fuel mode rest (references.union refs) visited

/-- Translation of can_defs. The scope was cloned by the caller. Bound
idents are pre-registered, each definition is processed, the return
expression is canonicalized, the three concentric Let layers are built,
references are closed over the dependency graph, unused assignments are
reported, and the assignments are ordered topologically; a cycle becomes
a CircularAssignment runtime error whose ident list is rotated by
sort_cyclic_idents fed with the idents in declaration order. -/
def can_defs (recF : CanonFn) (env : Env) (subs : Subs) (scope : Scope) (defs : List AstDef)
    (expected : Expected) (retRegion : Nat) (ret : AstExpr) :
    CanResult ((Expr × Output) × Env × Subs) := do
  let pattern_list := defs.filterMap (fun d =>
    match d with
    | .AnnotationOnly _ => none
    | .BodyOnly patternRegion pattern _ _ => some (patternRegion, pattern)
    | .AnnotatedBody _ => none)
  let assigned_idents ← idents_from_patterns pattern_list scope
  let scope := { scope with idents := union_pairs scope.idents assigned_idents }
  let ((flex_info, refMap, assignMap), env, subs) ←
    can_defs_loop recF scope defs (Info.empty, [], []) env subs
  let ((ret_expr, output0), env, subs) ← recF env subs scope retRegion ret expected
  let ret_con := output0.constraint
  let constraint :=
    Constraint.Let [] [] []
      (Constraint.Let [] flex_info.vars flex_info.assignment_types
        (Constraint.Let [] [] flex_info.assignment_types Constraint.CTrue
          (Constraint.And flex_info.constraints))
        (Constraint.And [Constraint.And [], ret_con]))
      Constraint.CTrue
  let output := { output0 with constraint := constraint }
  let walk_fuel := refMap.length + env.procedures.length + 2
  let (references, visited) ←
    defs_walk refMap env.procedures walk_fuel .fromLocal output.references.locals
      output.references ∅
  let (references, _) ←
    defs_walk refMap env.procedures walk_fuel .fromCall references.calls references visited
  let output := { output with references := references }
  let env := assigned_idents.foldl
    (fun env p =>
      match p with
      | (ident, symbol, region) =>
        if output.references.has_local symbol then env
        else env.problem (Problem.UnusedAssignment ⟨region, ident⟩)) env
  let succ_fuel := 2 * (env.procedures.length + 1)
  let successors := fun (symbol : SymId) =>
    match lookupRefMap refMap symbol with
    | none => []
    | some (_, references) => local_successors succ_fuel references env.procedures
  let assigned_symbols := assignMap.map (fun p => p.1)
  match topological_sort assigned_symbols successors with
  | .ok sorted_symbols =>
    let can_assignments := sorted_symbols.reverse.filterMap (fun s => lookupAssignMap assignMap s)
    match mkFlexVar subs with
    | (v, subs) => .ok ((Expr.Define v can_assignments ret_expr, output), env, subs)
  | .error node_in_cycle =>
    let comp :=
      (strongly_connected_component node_in_cycle successors (assignMap.length + 1)).reverse
    let loc_idents_in_cycle := comp.filterMap (fun s => (lookupRefMap refMap s).map (fun p => p.1))
    match sort_cyclic_idents loc_idents_in_cycle (assigned_idents.map (fun p => p.1)) with
    | none => .crash ("unwrap failed: no ordered ident occurs in the cycle")
    | some sorted =>
      let env := env.problem (Problem.CircularAssignment sorted)
      let regions := assignMap.map (fun p => (p.2.1.region, p.2.2.region))
      .ok ((Expr.RuntimeError (RuntimeError.CircularAssignment sorted regions ret_expr.region),
        output), env, subs)

/-- One layer of canonicalize_expr: dispatch over the AST, using the
given function for every recursive canonicalization. Branches the source
aborts on are crashes, carrying the panic intent. -/
def canonicalize_step (fp : String → Option FloatVal) (recF : CanonFn) : CanonFn :=
  fun env subs scope region expr expected =>
  match expr with
  | .Int s =>
    match int_from_parsed s env expected region with
    | ((constraint, answer), env) => .ok ((⟨region, answer⟩, Output.new constraint), env, subs)
  | .Float s =>
    match float_from_parsed fp s env expected region with
    | ((constraint, answer), env) => .ok ((⟨region, answer⟩, Output.new constraint), env, subs)
  | .Record fields =>
    if fields.isEmpty then
      .ok ((⟨region, Expr.EmptyRecord⟩,
        Output.new (Constraint.Eq Ty.emptyRec expected region)), env, subs)
    else
      .crash ("TODO canonicalize nonempty record")
  | .Str s =>
    .ok ((⟨region, Expr.Str s⟩,
      Output.new (Constraint.Eq constrain_str_type expected region)), env, subs)
  | .ListL loc_elems =>
    if loc_elems.isEmpty then
      match mkFlexVar subs with
      | (v, subs) =>
        .ok ((⟨region, Expr.EmptyList⟩,
          Output.new (Constraint.Eq (constrain_empty_list_type v) expected region)), env, subs)
    else
      match mkFlexVar subs with
      | (list_var, subs) => do
        let list_type := Ty.var list_var
        let ((can_elems, constraints, references), env, subs) ←
          canonicalize_elems recF scope region list_type loc_elems ([], [], References.new) env subs
        let constraints := constraints ++
          [Constraint.Eq (constrain_list_type list_type) expected region]
        match mkFlexVar subs with
        | (v, subs) =>
          .ok ((⟨region, Expr.ListE v can_elems⟩,
            { references := references, tail_call := none,
              constraint := Constraint.And constraints }), env, subs)
  | .Apply _ _ _ => .crash ("TODO canonicalize Apply")
  | .Operator leftRegion left opRegion op rightRegion right =>
    (match mkFlexVar subs with
    | (l_arg_var, subs) => do
      let l_arg_type := Ty.var l_arg_var
      let ((left_expr, left_out), env, subs) ←
        recF env subs scope leftRegion left (Expected.NoExpectation l_arg_type)
      let l_con := left_out.constraint
      match mkFlexVar subs with
      | (r_arg_var, subs) => do
        let r_arg_type := Ty.var r_arg_var
        let ((right_expr, output0), env, subs) ←
          recF env subs scope rightRegion right (Expected.NoExpectation r_arg_type)
        let r_con := output0.constraint
        let output := { output0 with references := output0.references.union left_out.references }
        match op with
        | .Pizza =>
          let tail_call :=
            match right_expr.value with
            | .Var _ sym => some sym
            | .Call _ _ fnE _ =>
              match fnE with
              | .Var _ sym => some sym
              | _ => none
            | _ => none
          let _output := { output with tail_call := tail_call }
          .crash ("TODO translate the pizza operator into a Call. NOTE: This will require shifting the above canonicalization code around.")
        | _ => do
          let output := { output with tail_call := none }
          let op_types := Ty.for_operator op
          let l_expected := Expected.ForReason (Reason.OperatorArg op ArgSide.left) op_types.left region
          let r_expected := Expected.ForReason (Reason.OperatorArg op ArgSide.right) op_types.right region
          match mkFlexVar subs with
          | (ret_var, subs) =>
            let ret_type := Ty.var ret_var
            let expected_ret_type := Expected.ForReason (Reason.OperatorRet op) op_types.ret region
            let output :=
              { output with
                constraint := Constraint.And
                  [l_con,
                    Constraint.Eq l_arg_type l_expected region,
                    r_con,
                    Constraint.Eq r_arg_type r_expected region,
                    Constraint.Eq ret_type expected_ret_type region,
                    Constraint.Eq ret_type expected region] }
            match mkFlexVar subs with
            | (op_var, subs) =>
              match mkFlexVar subs with
              | (call_var, subs) =>
                .ok ((⟨region,
                  Expr.Call call_var opRegion (Expr.Var op_var op.desugar)
                    [left_expr, right_expr]⟩, output), env, subs))
  | .Var module_parts name =>
    let symbol := SymId.from_parts module_parts name
    let output := Output.new (Constraint.Lookup symbol expected region)
    let ident := Ident.new module_parts name
    (match resolve_ident env scope ident output.references with
    | (.ok sym, references) =>
      match mkFlexVar subs with
      | (v, subs) =>
        .ok ((⟨region, Expr.Var v sym⟩, { output with references := references }), env, subs)
    | (.error bad, references) =>
      let loc_ident : Located Ident := ⟨region, bad⟩
      let env := env.problem (Problem.UnrecognizedConstant loc_ident)
      .ok ((⟨region, Expr.RuntimeError (RuntimeError.UnrecognizedConstant loc_ident)⟩,
        { output with references := references }), env, subs))
  | .Defs defs retRegion ret => do
    let ((e, output), env, subs) ← can_defs recF env subs scope defs expected retRegion ret
    .ok ((⟨region, e⟩, output), env, subs)
  | .Closure _ _ _ => .crash ("TODO constrain Closure")
  | .SpaceBefore e => recF env subs scope region e expected
  | .SpaceAfter e => recF env subs scope region e expected
  | .BlockStr => .crash ("TODO restore the rest of the canonicalize branches")
  | .Field => .crash ("TODO restore the rest of the canonicalize branches")
  | .QualifiedField => .crash ("TODO restore the rest of the canonicalize branches")
  | .AccessorFunction => .crash ("TODO restore the rest of the canonicalize branches")
  | .If => .crash ("TODO restore the rest of the canonicalize branches")
  | .Case => .crash ("TODO restore the rest of the canonicalize branches")
  | .Variant => .crash ("TODO restore the rest of the canonicalize branches")
  | .MalformedIdent _ => .crash ("TODO restore the rest of the canonicalize branches")
  | .MalformedClosure => .crash ("TODO restore the rest of the canonicalize branches")
  | .PrecedenceConflict => .crash ("TODO restore the rest of the canonicalize branches")
  | .AssignField => .crash ("TODO restore the rest of the canonicalize branches")
  | .BinaryInt s =>
    match bin_from_parsed s env expected region with
    | ((constraint, answer), env) => .ok ((⟨region, answer⟩, Output.new constraint), env, subs)
  | .HexInt s =>
    match hex_from_parsed s env expected region with
    | ((constraint, answer), env) => .ok ((⟨region, answer⟩, Output.new constraint), env, subs)
  | .OctalInt s =>
    match oct_from_parsed s env expected region with
    | ((constraint, answer), env) => .ok ((⟨region, answer⟩, Output.new constraint), env, subs)

/-- Fueled canonicalize_expr: each layer of recursion consumes one unit
of fuel. -/
def canonicalize_expr (fp : String → Option FloatVal) : Nat → CanonFn
  | 0 => fun _ _ _ _ _ _ => .outOfFuel
  | n + 1 => canonicalize_step fp (canonicalize_expr fp n)

/-- Problems of an ok canonicalization result. -/
def problemsOf (r : CanResult ((Located Expr × Output) × Env × Subs)) : Option (List Problem) :=
  match r with
  | .ok (_, env, _) => some env.problems
  | _ => none

/-- Constraint of the Output of an ok canonicalization result. -/
def outputConstraintOf (r : CanResult ((Located Expr × Output) × Env × Subs)) : Option Constraint :=
  match r with
  | .ok ((_, output), _, _) => some output.constraint
  | _ => none

/-- Number of conjuncts of a top-level And constraint. -/
def and_length : Constraint → Nat
  | .And cs => cs.length
  | _ => 0

/-- Shape predicate for the constraints accumulated over the elements of
a nonempty list literal: the constraints come in pairs whose first member
is an Eq tying the shared element-type variable, with the ElemInList
reason, to a per-element type variable at the list region. -/
def elemwise_shape (region : Nat) (listType : Ty) : List Constraint → Bool
  | [] => true
  | .Eq t (.ForReason .ElemInList (.var _) r1) r2 :: _ :: rest =>
    decide (t = listType) && decide (r1 = region) && decide (r2 = region) &&
      elemwise_shape region listType rest
  | _ => false

/-- Element loop as the claim words it, for comparison: every element is
canonicalized directly against the single shared element-type variable
under NoExpectation, and only the per-element constraints are
accumulated. -/
def spec_list_claim_go (recF : CanonFn) (scope : Scope) (elem_type : Ty) :
    List (Nat × AstExpr) → (List (Located Expr) × List Constraint × References) → Env → Subs →
    CanResult ((List (Located Expr) × List Constraint × References) × Env × Subs)
  | [], acc, env, subs => .ok (acc, env, subs)
  | (r, e) :: rest, (can_elems, constraints, references), env, subs =>
    match recF env subs scope r e (Expected.NoExpectation elem_type) with
    | .ok ((can_expr, elem_out), env, subs) =>
      spec_list_claim_go recF scope elem_type rest
        (can_elems ++ [can_expr], constraints ++ [elem_out.constraint],
          references.union elem_out.references) env subs
    | .crash m => .crash m
    | .outOfFuel => .outOfFuel

/-- Nonempty-list canonicalization as the claim words it, for comparison
with the translated branch: one fresh type variable for the element type,
each element canonicalized against that shared variable under
NoExpectation, the per-element constraints plus one Eq pinning the list
type to the expected type, the element references unioned, and no tail
call. -/
def spec_list_canonicalize (recF : CanonFn) (env : Env) (subs : Subs) (scope : Scope)
    (region : Nat) (loc_elems : List (Nat × AstExpr)) (expected : Expected) :
    CanResult ((Located Expr × Output) × Env × Subs) :=
  match mkFlexVar subs with
  | (list_var, subs) =>
    match spec_list_claim_go recF scope (Ty.var list_var) loc_elems ([], [], References.new)
        env subs with
    | .ok ((can_elems, constraints, references), env, subs) =>
      .ok ((⟨region, Expr.ListE list_var can_elems⟩,
        { references := references, tail_call := none,
          constraint := Constraint.And (constraints ++
            [Constraint.Eq (constrain_list_type (Ty.var list_var)) expected region]) }), env, subs)
    | .crash m => .crash m
    | .outOfFuel => .outOfFuel

/-- Keys of the two maps the reference walk consults. -/
def allKeys (rba : RefMap) (procedures : ProcMap) : Finset SymId :=
  (rba.map (fun p => p.1)).toFinset ∪ (procedures.map (fun p => p.1)).toFinset

/-- Helper: bind on an ok result applies the continuation. -/
theorem bind_ok_canres {α β : Type} (a : α) (f : α → CanResult β) :
    ((CanResult.ok a : CanResult α) >>= f) = f a := rfl

/-- Helper: bind on a crash propagates the crash. -/
theorem bind_crash_canres {α β : Type} (m : String) (f : α → CanResult β) :
    ((CanResult.crash m : CanResult α) >>= f) = .crash m := rfl

/-- Helper: bind on fuel exhaustion propagates the exhaustion. -/
theorem bind_oof_canres {α β : Type} (f : α → CanResult β) :
    ((CanResult.outOfFuel : CanResult α) >>= f) = .outOfFuel := rfl

/-- Helper: a symbol under no key of the assignment map looks up to none. -/
theorem lookupRefMap_eq_none (rba : RefMap) (s : SymId)
    (h : ∀ p ∈ rba, p.1 ≠ s) : lookupRefMap rba s = none := by
  have hfind : rba.find? (fun p => decide (p.1 = s)) = none := by
    rw [List.find?_eq_none]
    intro p hp
    simpa using h p hp
  simp [lookupRefMap, hfind]

/-- Helper: a successful assignment-map lookup means the key is present. -/
theorem mem_keys_of_lookupRefMap_some (rba : RefMap) (s : SymId)
    (v : Located Ident × References) (h : lookupRefMap rba s = some v) :
    s ∈ rba.map (fun p => p.1) := by
  simp only [lookupRefMap, Option.map_eq_some'] at h
  obtain ⟨p, hfind, _⟩ := h
  have hmem := List.mem_of_find?_eq_some hfind
  have hpred := List.find?_some hfind
  simp only [decide_eq_true_eq] at hpred
  exact hpred ▸ List.mem_map_of_mem (fun p => p.1) hmem

/-- Helper: a symbol under no key of the procedure map looks up to none. -/
theorem lookupProc_eq_none (procs : ProcMap) (s : SymId)
    (h : ∀ p ∈ procs, p.1 ≠ s) : lookupProc procs s = none := by
  have hfind : procs.find? (fun p => decide (p.1 = s)) = none := by
    rw [List.find?_eq_none]
    intro p hp
    simpa using h p hp
  simp [lookupProc, hfind]

/-- Helper: looking up a freshly inserted assignment entry yields it. -/
theorem lookupRefMap_insert_self (m : RefMap) (s : SymId) (v : Located Ident × References) :
    lookupRefMap (insertRefMap m s v) s = some v := by
  simp [lookupRefMap, insertRefMap, List.find?_cons_of_pos]

/-- Helper: looking up a freshly inserted procedure yields it. -/
theorem lookupProc_insert_self (m : ProcMap) (s : SymId) (p : Procedure) :
    lookupProc (insertProc m s p) s = some p := by
  simp [lookupProc, insertProc, List.find?_cons_of_pos]

/-- Helper: empty references have no successors at any fuel. -/
theorem local_successors_new (fuel : Nat) (procedures : ProcMap) :
    local_successors fuel References.new procedures = [] := by
  cases fuel with
  | zero => rfl
  | succ n => rfl

/-- Helper: the visited set only grows along one item loop of the walk. -/
theorem walk_items_mono (recF : SymId → Finset SymId → CanResult (References × Finset SymId))
    (hrec : ∀ x v out, recF x v = .ok out → v ⊆ out.2) :
    ∀ (items : List SymId) (b : Bool) (acc out : References × Finset SymId),
      walk_items recF b items acc = .ok out → acc.2 ⊆ out.2 := by
  intro items
  induction items with
  | nil =>
    intro b acc out h
    simp only [walk_items] at h
    cases h
    exact Finset.Subset.refl _
  | cons x xs ih =>
    intro b acc out h
    obtain ⟨answer, visited⟩ := acc
    simp only [walk_items] at h
    split at h
    · have h2 := ih _ _ _ h
      exact h2
    · split at h
      · rename_i other visited' hrecv
        have h2 := ih _ _ _ h
        exact (hrec _ _ _ hrecv).trans h2
      · cases h
      · cases h

/-- Helper: the visited set only grows along the reference walk. -/
theorem refs_walk_mono (rba : RefMap) (procs : ProcMap) :
    ∀ (fuel : Nat) (mode : RMode) (s : SymId) (visited : Finset SymId)
      (out : References × Finset SymId),
      refs_walk rba procs fuel mode s visited = .ok out → visited ⊆ out.2 := by
  intro fuel
  induction fuel with
  | zero =>
    intro mode s visited out h
    simp only [refs_walk] at h
    cases h
  | succ n ih =>
    intro mode s visited out h
    cases mode with
    | fromLocal =>
      simp only [refs_walk] at h
      split at h
      · cases h
      · rename_i li refs heq
        cases hw1 : walk_items (fun x v => refs_walk rba procs n RMode.fromLocal x v) false
            refs.locals (References.new, insert s visited) with
        | ok acc =>
          rw [hw1, bind_ok_canres] at h
          have h1 := walk_items_mono _ (fun x v o => ih .fromLocal x v o) _ _ _ _ hw1
          have h2 := walk_items_mono _ (fun x v o => ih .fromCall x v o) _ _ _ _ h
          exact (Finset.subset_insert s visited).trans (h1.trans h2)
        | crash m => rw [hw1, bind_crash_canres] at h; cases h
        | outOfFuel => rw [hw1, bind_oof_canres] at h; cases h
    | fromCall =>
      simp only [refs_walk] at h
      split at h
      · cases h
        exact Finset.Subset.refl _
      · rename_i procedure heq
        cases hw1 : walk_items (fun x v => refs_walk rba procs n RMode.fromLocal x v) false
            procedure.references.locals (procedure.references, insert s visited) with
        | ok acc =>
          rw [hw1, bind_ok_canres] at h
          have h1 := walk_items_mono _ (fun x v o => ih .fromLocal x v o) _ _ _ _ hw1
          have h2 := walk_items_mono _ (fun x v o => ih .fromCall x v o) _ _ _ _ h
          exact (Finset.subset_insert s visited).trans (h1.trans h2)
        | crash m => rw [hw1, bind_crash_canres] at h; cases h
        | outOfFuel => rw [hw1, bind_oof_canres] at h; cases h

/-- Helper: one item loop of the walk never runs out of fuel when none of
its recursive calls on unvisited symbols does. -/
theorem walk_items_ne_oof (recF : SymId → Finset SymId → CanResult (References × Finset SymId))
    (hrecmono : ∀ x v out, recF x v = .ok out → v ⊆ out.2)
    (V : Finset SymId) (hne : ∀ x v, V ⊆ v → x ∉ v → recF x v ≠ .outOfFuel) :
    ∀ (items : List SymId) (b : Bool) (acc : References × Finset SymId),
      V ⊆ acc.2 → walk_items recF b items acc ≠ .outOfFuel := by
  intro items
  induction items with
  | nil =>
    intro b acc hV h
    simp only [walk_items] at h
    cases h
  | cons x xs ih =>
    intro b acc hV
    obtain ⟨answer, visited⟩ := acc
    simp only [walk_items]
    split
    · exact ih b _ hV
    · split
      · rename_i other visited' hrecv
        have hm := hrecmono x visited _ hrecv
        exact ih b _ (hV.trans hm)
      · simp
      · rename_i hrecv hx
        exact absurd (by assumption) (hne x visited hV (by assumption))

/-- Helper: one layer of the reference walk never runs out of fuel when
no recursive call on a symbol outside the grown visited set does. -/
theorem refs_walk_step_ne_oof (rba : RefMap) (procs : ProcMap) (f' : Nat) (mode : RMode)
    (s : SymId) (visited : Finset SymId)
    (hinner : ∀ (mode' : RMode) (x : SymId) (v : Finset SymId), insert s visited ⊆ v → x ∉ v →
      refs_walk rba procs f' mode' x v ≠ .outOfFuel) :
    refs_walk rba procs (f' + 1) mode s visited ≠ .outOfFuel := by
  have hmonoL : ∀ x v o, refs_walk rba procs f' .fromLocal x v = .ok o → v ⊆ o.2 :=
    fun x v o => refs_walk_mono rba procs f' .fromLocal x v o
  have hmonoC : ∀ x v o, refs_walk rba procs f' .fromCall x v = .ok o → v ⊆ o.2 :=
    fun x v o => refs_walk_mono rba procs f' .fromCall x v o
  cases mode with
  | fromLocal =>
    simp only [refs_walk]
    split
    · simp
    · rename_i li refs heq
      cases hw1 : walk_items (fun x v => refs_walk rba procs f' RMode.fromLocal x v) false
          refs.locals (References.new, insert s visited) with
      | ok acc =>
        rw [bind_ok_canres]
        exact walk_items_ne_oof _ hmonoC (insert s visited)
          (fun x v hsub hxv => hinner .fromCall x v hsub hxv) refs.calls true acc
          (walk_items_mono _ hmonoL _ _ _ _ hw1)
      | crash m => rw [bind_crash_canres]; simp
      | outOfFuel =>
        exact absurd hw1 (walk_items_ne_oof _ hmonoL (insert s visited)
          (fun x v hsub hxv => hinner .fromLocal x v hsub hxv) refs.locals false
          (References.new, insert s visited) (Finset.Subset.refl _))
  | fromCall =>
    simp only [refs_walk]
    split
    · simp
    · rename_i procedure heq
      cases hw1 : walk_items (fun x v => refs_walk rba procs f' RMode.fromLocal x v) false
          procedure.references.locals (procedure.references, insert s visited) with
      | ok acc =>
        rw [bind_ok_canres]
        exact walk_items_ne_oof _ hmonoC (insert s visited)
          (fun x v hsub hxv => hinner .fromCall x v hsub hxv) procedure.references.calls true acc
          (walk_items_mono _ hmonoL _ _ _ _ hw1)
      | crash m => rw [bind_crash_canres]; simp
      | outOfFuel =>
        exact absurd hw1 (walk_items_ne_oof _ hmonoL (insert s visited)
          (fun x v hsub hxv => hinner .fromLocal x v hsub hxv) procedure.references.locals false
          (procedure.references, insert s visited) (Finset.Subset.refl _))

/-- Helper: fuel exceeding the number of unvisited keys suffices for the
reference walk started on an unvisited symbol. -/
theorem refs_walk_fuel_ge (rba : RefMap) (procs : ProcMap) :
    ∀ (n : Nat) (f : Nat), n < f → ∀ (mode : RMode) (s : SymId) (visited : Finset SymId),
      s ∉ visited → (allKeys rba procs \ visited).card ≤ n →
      refs_walk rba procs f mode s visited ≠ .outOfFuel := by
  intro n
  induction n with
  | zero =>
    intro f hf mode s visited hs hcard
    obtain ⟨f', rfl⟩ : ∃ f', f = f' + 1 := ⟨f - 1, by omega⟩
    have hsK : s ∉ allKeys rba procs := by
      intro hmem
      have hin : s ∈ allKeys rba procs \ visited := Finset.mem_sdiff.mpr ⟨hmem, hs⟩
      have hpos : 0 < (allKeys rba procs \ visited).card := Finset.card_pos.mpr ⟨s, hin⟩
      omega
    have hrba : lookupRefMap rba s = none := by
      apply lookupRefMap_eq_none
      intro p hp hps
      exact hsK (by
        simp only [allKeys, Finset.mem_union, List.mem_toFinset]
        exact Or.inl (hps ▸ List.mem_map_of_mem (fun p => p.1) hp))
    have hproc : lookupProc procs s = none := by
      apply lookupProc_eq_none
      intro p hp hps
      exact hsK (by
        simp only [allKeys, Finset.mem_union, List.mem_toFinset]
        exact Or.inr (hps ▸ List.mem_map_of_mem (fun p => p.1) hp))
    cases mode with
    | fromLocal => simp [refs_walk, hrba]
    | fromCall => simp [refs_walk, hproc]
  | succ n ih =>
    intro f hf mode s visited hs hcard
    obtain ⟨f', rfl⟩ : ∃ f', f = f' + 1 := ⟨f - 1, by omega⟩
    by_cases hsK : s ∈ allKeys rba procs
    · have hscard : s ∈ allKeys rba procs \ visited := Finset.mem_sdiff.mpr ⟨hsK, hs⟩
      have hcard2 : (allKeys rba procs \ insert s visited).card ≤ n := by
        have heq : allKeys rba procs \ insert s visited =
            (allKeys rba procs \ visited).erase s := by
          ext a
          simp only [Finset.mem_sdiff, Finset.mem_erase, Finset.mem_insert]
          tauto
        rw [heq, Finset.card_erase_of_mem hscard]
        omega
      apply refs_walk_step_ne_oof
      intro mode' x v hsub hxv
      apply ih f' (by omega) mode' x v hxv
      calc (allKeys rba procs \ v).card
          ≤ (allKeys rba procs \ insert s visited).card :=
            Finset.card_le_card (Finset.sdiff_subset_sdiff (Finset.Subset.refl _) hsub)
        _ ≤ n := hcard2
    · have hrba : lookupRefMap rba s = none := by
        apply lookupRefMap_eq_none
        intro p hp hps
        exact hsK (by
          simp only [allKeys, Finset.mem_union, List.mem_toFinset]
          exact Or.inl (hps ▸ List.mem_map_of_mem (fun p => p.1) hp))
      have hproc : lookupProc procs s = none := by
        apply lookupProc_eq_none
        intro p hp hps
        exact hsK (by
          simp only [allKeys, Finset.mem_union, List.mem_toFinset]
          exact Or.inr (hps ▸ List.mem_map_of_mem (fun p => p.1) hp))
      cases mode with
      | fromLocal => simp [refs_walk, hrba]
      | fromCall => simp [refs_walk, hproc]

/-- Helper: the constraints accumulated by the element loop extend the
accumulator with a list of the paired element shape. -/
theorem canonicalize_elems_shape (recF : CanonFn) (scope : Scope) (region : Nat) (lt : Ty) :
    ∀ (elems : List (Nat × AstExpr)) (acc : List (Located Expr) × List Constraint × References)
      (env : Env) (subs : Subs)
      (out : (List (Located Expr) × List Constraint × References) × Env × Subs),
      canonicalize_elems recF scope region lt elems acc env subs = .ok out →
      ∃ tail, out.1.2.1 = acc.2.1 ++ tail ∧ elemwise_shape region lt tail = true := by
  intro elems
  induction elems with
  | nil =>
    intro acc env subs out h
    simp only [canonicalize_elems] at h
    cases h
    exact ⟨[], by simp, rfl⟩
  | cons head rest ih =>
    obtain ⟨r, e⟩ := head
    intro acc env subs out h
    obtain ⟨ce, cs, refs⟩ := acc
    simp only [canonicalize_elems, mkFlexVar] at h
    cases hrec : recF env (subs + 1) scope r e (Expected.NoExpectation (Ty.var subs)) with
    | ok val =>
      rw [hrec] at h
      obtain ⟨⟨can_expr, elem_out⟩, env2, subs2⟩ := val
      obtain ⟨tail', htail', hshape'⟩ := ih _ _ _ _ h
      refine ⟨Constraint.Eq lt (Expected.ForReason Reason.ElemInList (Ty.var subs) region) region ::
        elem_out.constraint :: tail', ?_, ?_⟩
      · simpa using htail'
      · simp [elemwise_shape, hshape']
    | crash m => rw [hrec] at h; cases h
    | outOfFuel => rw [hrec] at h; cases h

/-- Claim C1. The claim states that the reported CircularAssignment
ident list always begins at the alphabetically lowest participant of the
cycle. In the code, sort_cyclic_idents rotates the cycle to start at the
first ident of ordered_idents, and can_defs passes assigned_idents in
declaration order, not alphabetical order: for a block declaring c, a, b
in that order, whose bindings form the cycle c to a to b to c, the
reported list stays c, a, b and does not begin at a. This contradicts
the doc comment of sort_cyclic_idents itself, which promises the
alphabetically lowest first element. The rotation is preserved, as the
claim also requires. -/
theorem claim_C1_cycle_rotation_starts_in_declaration_order :
    sort_cyclic_idents
      [⟨1, Ident.unqualified ("c")⟩, ⟨2, Ident.unqualified ("a")⟩, ⟨3, Ident.unqualified ("b")⟩]
      [Ident.unqualified ("c"), Ident.unqualified ("a"), Ident.unqualified ("b")]
      = some [⟨1, Ident.unqualified ("c")⟩, ⟨2, Ident.unqualified ("a")⟩,
          ⟨3, Ident.unqualified ("b")⟩]
    ∧ sort_cyclic_idents
      [⟨1, Ident.unqualified ("c")⟩, ⟨2, Ident.unqualified ("a")⟩, ⟨3, Ident.unqualified ("b")⟩]
      [Ident.unqualified ("c"), Ident.unqualified ("a"), Ident.unqualified ("b")]
      ≠ some [⟨2, Ident.unqualified ("a")⟩, ⟨3, Ident.unqualified ("b")⟩,
          ⟨1, Ident.unqualified ("c")⟩] := by
  constructor
  · decide
  · decide

/-- Claim C2. For a binding whose source pattern is a plain identifier
and whose canonicalized body is a function pointer, the per-definition
tail of can_defs records empty references for the assigned symbol in
refs_by_assignment, so the own symbol is excluded; it renames the
generated procedure to the source name; it sets is_self_tail_recursive
exactly when the tail call of the body is the assigned symbol; and the
recorded references yield no successors at all, so the binding
contributes no self-loop edge to the cycle-detection graph. -/
theorem claim_C2_closure_binding (env : Env) (subs : Subs) (scope : Scope) (patternRegion : Nat)
    (name : String) (loc_can_expr : Located Expr) (can_output : Output)
    (refMap : RefMap) (assignMap : AssignMap) (fv : Nat) (gen : SymId) (procedure : Procedure)
    (hexpr : loc_can_expr.value = Expr.FunctionPointer fv gen)
    (hproc : lookupProc env.procedures gen = some procedure) :
    ∃ refMap' assignMap' env' subs',
      process_def_tail env subs scope patternRegion (AstPattern.Identifier name) loc_can_expr
        can_output refMap assignMap = .ok ((refMap', assignMap'), env', subs')
      ∧ lookupRefMap refMap' (scope.symbol name) =
          some (⟨patternRegion, Ident.unqualified name⟩, References.new)
      ∧ (∀ li refs, lookupRefMap refMap' (scope.symbol name) = some (li, refs) →
          scope.symbol name ∉ refs.locals)
      ∧ lookupProc env'.procedures (scope.symbol name) =
          some { procedure with
            name := some name,
            is_self_tail_recursive := decide (can_output.tail_call = some (scope.symbol name)) }
      ∧ (∀ p', lookupProc env'.procedures (scope.symbol name) = some p' →
          (p'.is_self_tail_recursive = true ↔ can_output.tail_call = some (scope.symbol name)))
      ∧ (∀ fuel, local_successors fuel References.new env'.procedures = []) := by
  obtain ⟨ceRegion, ceVal⟩ := loc_can_expr
  simp only at hexpr
  subst hexpr
  refine ⟨insertRefMap
      (modifyRefMap refMap (scope.symbol name) (fun refs =>
        { refs with locals := refs.locals.filter (fun l => decide (l ≠ scope.symbol name)) }))
      (scope.symbol name) (⟨patternRegion, Ident.unqualified name⟩, References.new),
    insertAssignMap assignMap (scope.symbol name)
      (⟨patternRegion, Pattern.Identifier subs (scope.symbol name)⟩,
        ⟨ceRegion, Expr.Var (subs + 1) (scope.symbol name)⟩),
    { env with
      procedures := insertProc (env.procedures.filter (fun q => decide (q.1 ≠ gen)))
        (scope.symbol name)
        { procedure with
          name := some name,
          is_self_tail_recursive :=
            match can_output.tail_call with
            | none => false
            | some s => decide (s = scope.symbol name) } },
    subs + 2, ?_, ?_, ?_, ?_, ?_, ?_⟩
  · simp [process_def_tail, remove_idents, canonicalize_pattern, mkFlexVar, Bind.bind,
      CanResult.bind, removeProc, hproc, idents_from_patterns, add_idents_from_pattern, pure]
  · simp [lookupRefMap_insert_self]
  · intro li refs h
    rw [lookupRefMap_insert_self] at h
    cases h
    simp [References.new]
  · rw [lookupProc_insert_self]
    cases htc : can_output.tail_call with
    | none => simp
    | some s => simp
  · intro p' h
    rw [lookupProc_insert_self] at h
    cases h
    cases htc : can_output.tail_call with
    | none => simp [htc]
    | some s => simp [htc]
  · intro fuel
    exact local_successors_new fuel _

/-- Witness for claim C2: a concrete closure binding f assigned the
generated procedure Main$ex$0, with a body tail calling f. -/
theorem claim_C2_closure_binding_witness :
    ∃ refMap' assignMap' env' subs',
      process_def_tail ⟨("Main"), [], [(("Main$ex$0"), ⟨none, false, ⟨[("Main$ex$f")], [], []⟩⟩)]⟩
        10 ⟨("Main$ex$"), []⟩ 1 (AstPattern.Identifier ("f"))
        ⟨2, Expr.FunctionPointer 9 ("Main$ex$0")⟩
        ⟨⟨[("Main$ex$f")], [], []⟩, some ("Main$ex$f"), Constraint.CTrue⟩ [] []
        = .ok ((refMap', assignMap'), env', subs')
      ∧ lookupRefMap refMap' ("Main$ex$f") =
          some (⟨1, Ident.unqualified ("f")⟩, References.new)
      ∧ (∀ li refs, lookupRefMap refMap' ("Main$ex$f") = some (li, refs) →
          ("Main$ex$f") ∉ refs.locals)
      ∧ lookupProc env'.procedures ("Main$ex$f") =
          some ⟨some ("f"), true, ⟨[("Main$ex$f")], [], []⟩⟩
      ∧ (∀ p', lookupProc env'.procedures ("Main$ex$f") = some p' →
          (p'.is_self_tail_recursive = true ↔
            (some ("Main$ex$f") : Option SymId) = some ("Main$ex$f")))
      ∧ (∀ fuel, local_successors fuel References.new env'.procedures = []) :=
  claim_C2_closure_binding
    ⟨("Main"), [], [(("Main$ex$0"), ⟨none, false, ⟨[("Main$ex$f")], [], []⟩⟩)]⟩
    10 ⟨("Main$ex$"), []⟩ 1 ("f") ⟨2, Expr.FunctionPointer 9 ("Main$ex$0")⟩
    ⟨⟨[("Main$ex$f")], [], []⟩, some ("Main$ex$f"), Constraint.CTrue⟩ [] [] 9 ("Main$ex$0")
    ⟨none, false, ⟨[("Main$ex$f")], [], []⟩⟩ rfl rfl

/-- Claim C3. The claim states that a Pizza operator expression desugars
into an ordinary Call with a tail-call flag derived from the right-hand
side. In the code, the Pizza arm computes the tail call but then reaches
an unconditional panic before any Call node is built, so canonicalizing
any pipe expression aborts: here the concrete expression 1 pizza f, with
f in scope, crashes with the panic message of the source. -/
theorem claim_C3_pizza_desugar_panics :
    canonicalize_expr (fun _ => none) 2 ⟨("Main"), [], []⟩ 0
      ⟨("Main$ex$"), [(Ident.unqualified ("f"), ("Main$ex$f"), 0)]⟩ 7
      (AstExpr.Operator 8 (AstExpr.Int ("1")) 9 Op.Pizza 10 (AstExpr.Var [] ("f")))
      (Expected.NoExpectation (Ty.var 50))
      = .crash ("TODO translate the pizza operator into a Call. NOTE: This will require shifting the above canonicalization code around.") := by
  rfl

/-- Claim C4. Unused-binding detection is transitive: for the block
a = 1, b = a with return expression 99 both bindings are reported
UnusedAssignment, and for the same block with return expression b
neither is reported, because the reference closure reached from the
return expression covers both. -/
theorem claim_C4_unused_detection_transitive :
    problemsOf (canonicalize_expr (fun _ => none) 3 ⟨("Main"), [], []⟩ 0
      ⟨("Main$ex$"), []⟩ 0
      (AstExpr.Defs
        [AstDef.BodyOnly 1 (AstPattern.Identifier ("a")) 2 (AstExpr.Int ("1")),
          AstDef.BodyOnly 3 (AstPattern.Identifier ("b")) 4 (AstExpr.Var [] ("a"))]
        5 (AstExpr.Int ("99")))
      (Expected.NoExpectation (Ty.var 80)))
      = some [Problem.UnusedAssignment ⟨1, Ident.unqualified ("a")⟩,
          Problem.UnusedAssignment ⟨3, Ident.unqualified ("b")⟩]
    ∧ problemsOf (canonicalize_expr (fun _ => none) 3 ⟨("Main"), [], []⟩ 0
      ⟨("Main$ex$"), []⟩ 0
      (AstExpr.Defs
        [AstDef.BodyOnly 1 (AstPattern.Identifier ("a")) 2 (AstExpr.Int ("1")),
          AstDef.BodyOnly 3 (AstPattern.Identifier ("b")) 4 (AstExpr.Var [] ("a"))]
        5 (AstExpr.Var [] ("b")))
      (Expected.NoExpectation (Ty.var 80)))
      = some [] := by
  constructor
  · rfl
  · rfl

/-- Claim C5. The claim states the unreachable branch of
references_from_local never executes, including when the return
expression reads a local bound in an enclosing scope. In the code, a
nested Defs block whose return expression reads a local of the outer
block records that outer symbol in the references of the inner return
expression; the reference walk of the inner block then fails to find it
in the inner refs_by_assignment and executes the unreachable branch,
aborting canonicalization, as this concrete nested block shows. -/
theorem claim_C5_outer_local_hits_unreachable :
    canonicalize_expr (fun _ => none) 4 ⟨("Main"), [], []⟩ 0 ⟨("Main$ex$"), []⟩ 0
      (AstExpr.Defs [AstDef.BodyOnly 1 (AstPattern.Identifier ("x")) 2 (AstExpr.Int ("1"))]
        3 (AstExpr.Defs [AstDef.BodyOnly 4 (AstPattern.Identifier ("y")) 5 (AstExpr.Int ("2"))]
          6 (AstExpr.Var [] ("x"))))
      (Expected.NoExpectation (Ty.var 80))
      = .crash ("unreachable reached: local symbol missing from refs_by_assignment") := by
  rfl

/-- Claim C6. Ident resolution proceeds in exactly the two steps the
spec describes, with the stated failure behavior: a raw scope hit
resolves directly, inserting into locals for an unqualified ident and
into globals for a qualified one; an unqualified miss retries under the
home module and resolves to the home-qualified symbol in globals; and
otherwise the original ident is returned unchanged. The translated
resolve_ident equals the restatement of the spec algorithm on every
input. -/
theorem claim_C6_resolve_ident_two_step :
    ∀ (env : Env) (scope : Scope) (ident : Ident) (references : References),
      resolve_ident env scope ident references = resolve_ident_spec env scope ident references := by
  intro env scope ident references
  cases ident with
  | unqualified name => simp [resolve_ident, resolve_ident_spec]
  | qualified path name => simp [resolve_ident, resolve_ident_spec]

/-- Claim C7, counterexample. The claim states each element of a
nonempty list literal is canonicalized against the single shared
element-type variable under NoExpectation, accumulating only the
per-element constraints plus one pinning Eq. The translated branch
instead allocates a fresh per-element variable, canonicalizes the
element against it, and adds an extra ElemInList Eq constraint per
element: on the one-element list containing the integer literal 1 the
two outputs carry different constraints. -/
theorem claim_C7_counterexample :
    outputConstraintOf (canonicalize_expr (fun _ => none) 2 ⟨("Main"), [], []⟩ 0
      ⟨("Main$ex$"), []⟩ 5 (AstExpr.ListL [(1, AstExpr.Int ("1"))])
      (Expected.NoExpectation (Ty.var 77)))
    ≠ outputConstraintOf (spec_list_canonicalize (canonicalize_expr (fun _ => none) 1)
      ⟨("Main"), [], []⟩ 0 ⟨("Main$ex$"), []⟩ 5 [(1, AstExpr.Int ("1"))]
      (Expected.NoExpectation (Ty.var 77))) := by
  intro h
  exact absurd (congrArg (Option.map and_length) h) (by decide)

/-- Claim C7 as amended. For every nonempty list literal the translated
branch allocates one shared element-type variable, canonicalizes each
element against its own fresh type variable under NoExpectation and adds
for each element an Eq constraint tying the shared variable, with the
ElemInList reason, to the per-element variable; it accumulates these
paired constraints plus one Eq pinning the overall list type to the
expected type, unions all element references into the Output, and the
tail call of the Output is none regardless of element content. -/
theorem claim_C7_nonempty_list_amended (fp : String → Option FloatVal) (recF : CanonFn)
    (env : Env) (subs : Subs) (scope : Scope) (region : Nat)
    (loc_elems : List (Nat × AstExpr)) (expected : Expected)
    (le : Located Expr) (out : Output) (env' : Env) (subs' : Subs)
    (hne : loc_elems ≠ [])
    (h : canonicalize_step fp recF env subs scope region (AstExpr.ListL loc_elems) expected =
      .ok ((le, out), env', subs')) :
    out.tail_call = none
    ∧ ∃ can_elems constraints references subs₁,
        canonicalize_elems recF scope region (Ty.var subs) loc_elems ([], [], References.new)
          env (subs + 1) = .ok ((can_elems, constraints, references), env', subs₁)
        ∧ subs' = subs₁ + 1
        ∧ le = ⟨region, Expr.ListE subs₁ can_elems⟩
        ∧ out.references = references
        ∧ out.constraint = Constraint.And (constraints ++
            [Constraint.Eq (constrain_list_type (Ty.var subs)) expected region])
        ∧ elemwise_shape region (Ty.var subs) constraints = true := by
  have hempty : loc_elems.isEmpty = false := by
    cases loc_elems with
    | nil => exact absurd rfl hne
    | cons a l => rfl
  simp only [canonicalize_step, hempty, Bool.false_eq_true, if_false, mkFlexVar,
    Bind.bind, CanResult.bind] at h
  cases helems : canonicalize_elems recF scope region (Ty.var subs) loc_elems
      ([], [], References.new) env (subs + 1) with
  | ok val =>
    rw [helems] at h
    obtain ⟨⟨can_elems, constraints, references⟩, env2, subs2⟩ := val
    simp only at h
    cases h
    obtain ⟨tail, htail, hshape⟩ := canonicalize_elems_shape recF scope region (Ty.var subs)
      loc_elems ([], [], References.new) env (subs + 1) _ helems
    simp only at htail
    refine ⟨rfl, can_elems, constraints, references, subs2, rfl, rfl, rfl, rfl, rfl, ?_⟩
    rw [htail]
    simpa using hshape
  | crash m => rw [helems] at h; cases h
  | outOfFuel => rw [helems] at h; cases h

/-- Witness for the amended claim C7: the one-element list containing
the integer literal 1 canonicalizes with a tail call of none. -/
theorem claim_C7_nonempty_list_amended_witness :
    ∃ le out env' subs',
      canonicalize_step (fun _ => none) (canonicalize_expr (fun _ => none) 1)
        ⟨("Main"), [], []⟩ 0 ⟨("Main$ex$"), []⟩ 5 (AstExpr.ListL [(1, AstExpr.Int ("1"))])
        (Expected.NoExpectation (Ty.var 77)) = .ok ((le, out), env', subs')
      ∧ out.tail_call = none := by
  refine ⟨_, _, _, _, rfl, ?_⟩
  exact (claim_C7_nonempty_list_amended (fun _ => none) (canonicalize_expr (fun _ => none) 1)
    ⟨("Main"), [], []⟩ 0 ⟨("Main$ex$"), []⟩ 5 [(1, AstExpr.Int ("1"))]
    (Expected.NoExpectation (Ty.var 77)) _ _ _ _ (by simp) rfl).1

/-- Claim C8. For every numeric literal kind, underscore separators are
stripped before parsing; a literal accepted by the decimal, hex, octal
or binary parse canonicalizes to the integer value of the separator-free
standard-radix parse with the literal constraint; a parse failure is
non-fatal and yields a RuntimeError node carrying the kind-specific
problem, never a generic one, with the constraint degraded to CTrue and
the problem recorded; the float branch behaves the same for any parse
function standing in for the f64 parse; and the stripped literal is
itself separator-free. -/
theorem claim_C8_numeric_literals :
    ∀ (env : Env) (expected : Expected) (region : Nat) (raw : String),
      (∀ v, parse_signed_radix 10 (strip_underscores raw) = some v →
        int_from_parsed raw env expected region =
          ((constrain_int_literal expected region, Expr.Int v), env))
      ∧ (parse_signed_radix 10 (strip_underscores raw) = none →
        int_from_parsed raw env expected region =
          ((Constraint.CTrue, Expr.RuntimeError (RuntimeError.IntOutsideRange raw)),
            env.problem (Problem.RuntimeError (RuntimeError.IntOutsideRange raw))))
      ∧ (∀ v, parse_signed_radix 16 (strip_underscores raw) = some v →
        hex_from_parsed raw env expected region =
          ((constrain_int_literal expected region, Expr.Int v), env))
      ∧ (parse_signed_radix 16 (strip_underscores raw) = none →
        hex_from_parsed raw env expected region =
          ((Constraint.CTrue, Expr.RuntimeError (RuntimeError.InvalidHex raw)),
            env.problem (Problem.RuntimeError (RuntimeError.InvalidHex raw))))
      ∧ (∀ v, parse_signed_radix 8 (strip_underscores raw) = some v →
        oct_from_parsed raw env expected region =
          ((constrain_int_literal expected region, Expr.Int v), env))
      ∧ (parse_signed_radix 8 (strip_underscores raw) = none →
        oct_from_parsed raw env expected region =
          ((Constraint.CTrue, Expr.RuntimeError (RuntimeError.InvalidOctal raw)),
            env.problem (Problem.RuntimeError (RuntimeError.InvalidOctal raw))))
      ∧ (∀ v, parse_signed_radix 2 (strip_underscores raw) = some v →
        bin_from_parsed raw env expected region =
          ((constrain_int_literal expected region, Expr.Int v), env))
      ∧ (parse_signed_radix 2 (strip_underscores raw) = none →
        bin_from_parsed raw env expected region =
          ((Constraint.CTrue, Expr.RuntimeError (RuntimeError.InvalidBinary raw)),
            env.problem (Problem.RuntimeError (RuntimeError.InvalidBinary raw))))
      ∧ (∀ (fp : String → Option FloatVal) (q : FloatVal), fp (strip_underscores raw) = some q →
        float_from_parsed fp raw env expected region =
          ((constrain_float_literal expected region, Expr.Float q), env))
      ∧ (∀ (fp : String → Option FloatVal), fp (strip_underscores raw) = none →
        float_from_parsed fp raw env expected region =
          ((Constraint.CTrue, Expr.RuntimeError (RuntimeError.FloatOutsideRange raw)),
            env.problem (Problem.RuntimeError (RuntimeError.FloatOutsideRange raw))))
      ∧ strip_underscores (strip_underscores raw) = strip_underscores raw := by
  intro env expected region raw
  refine ⟨?_, ?_, ?_, ?_, ?_, ?_, ?_, ?_, ?_, ?_, ?_⟩
  · intro v h; simp [int_from_parsed, h]
  · intro h; simp [int_from_parsed, h]
  · intro v h; simp [hex_from_parsed, h]
  · intro h; simp [hex_from_parsed, h]
  · intro v h; simp [oct_from_parsed, h]
  · intro h; simp [oct_from_parsed, h]
  · intro v h; simp [bin_from_parsed, h]
  · intro h; simp [bin_from_parsed, h]
  · intro fp q h; simp [float_from_parsed, h]
  · intro fp h; simp [float_from_parsed, h]
  · simp [strip_underscores, List.filter_filter]

/-- Witness for claim C8: the decimal literal 1_0 parses to ten, and a
malformed hex literal degrades to the InvalidHex runtime error. -/
theorem claim_C8_numeric_literals_witness :
    int_from_parsed ("1_0") ⟨("Main"), [], []⟩ (Expected.NoExpectation (Ty.var 0)) 0 =
      ((constrain_int_literal (Expected.NoExpectation (Ty.var 0)) 0, Expr.Int 10),
        ⟨("Main"), [], []⟩) ∧
    hex_from_parsed ("ff_zz") ⟨("Main"), [], []⟩ (Expected.NoExpectation (Ty.var 0)) 0 =
      ((Constraint.CTrue, Expr.RuntimeError (RuntimeError.InvalidHex ("ff_zz"))),
        Env.problem ⟨("Main"), [], []⟩ (Problem.RuntimeError (RuntimeError.InvalidHex ("ff_zz")))) := by
  constructor
  · exact (claim_C8_numeric_literals ⟨("Main"), [], []⟩ (Expected.NoExpectation (Ty.var 0)) 0
      ("1_0")).1 10 (by decide)
  · exact (claim_C8_numeric_literals ⟨("Main"), [], []⟩ (Expected.NoExpectation (Ty.var 0)) 0
      ("ff_zz")).2.2.2.1 (by decide)

/-- Claim C9. The reference walks references_from_local and
references_from_call terminate on every input, including cyclic
reference graphs, because each marks a symbol in the shared visited set
before recursing and never recurses into an already visited symbol: any
fuel exceeding by two the number of unvisited map keys is never
exhausted. -/
theorem claim_C9_reference_walks_terminate (rba : RefMap) (procedures : ProcMap) (fuel : Nat)
    (s : SymId) (visited : Finset SymId)
    (hfuel : (allKeys rba procedures \ visited).card + 1 < fuel) :
    references_from_local rba procedures fuel s visited ≠ .outOfFuel
    ∧ references_from_call rba procedures fuel s visited ≠ .outOfFuel := by
  obtain ⟨f', rfl⟩ : ∃ f', fuel = f' + 1 := ⟨fuel - 1, by omega⟩
  have hinner : ∀ (mode' : RMode) (x : SymId) (v : Finset SymId), insert s visited ⊆ v → x ∉ v →
      refs_walk rba procedures f' mode' x v ≠ .outOfFuel := by
    intro mode' x v hsub hxv
    apply refs_walk_fuel_ge rba procedures ((allKeys rba procedures \ visited).card) f'
      (by omega) mode' x v hxv
    apply Finset.card_le_card
    apply Finset.sdiff_subset_sdiff (Finset.Subset.refl _)
    exact (Finset.subset_insert s visited).trans hsub
  exact ⟨refs_walk_step_ne_oof rba procedures f' .fromLocal s visited hinner,
    refs_walk_step_ne_oof rba procedures f' .fromCall s visited hinner⟩

/-- Witness for claim C9: two mutually referencing assignments form a
cyclic reference graph, and the walks complete on it. -/
theorem claim_C9_reference_walks_terminate_witness :
    references_from_local
      [(("Main$ex$a"), ⟨1, Ident.unqualified ("a")⟩, ⟨[("Main$ex$b")], [], []⟩),
        (("Main$ex$b"), ⟨2, Ident.unqualified ("b")⟩, ⟨[("Main$ex$a")], [], []⟩)]
      [] 4 ("Main$ex$a") ∅ ≠ .outOfFuel
    ∧ references_from_call
      [(("Main$ex$a"), ⟨1, Ident.unqualified ("a")⟩, ⟨[("Main$ex$b")], [], []⟩),
        (("Main$ex$b"), ⟨2, Ident.unqualified ("b")⟩, ⟨[("Main$ex$a")], [], []⟩)]
      [] 4 ("Main$ex$a") ∅ ≠ .outOfFuel := by
  exact claim_C9_reference_walks_terminate _ _ 4 ("Main$ex$a") ∅ (by decide)

/-- Claim C10. For every Var expression the Output constraint is a
Lookup on the symbol built directly from the written module parts and
name, at the expected type and region, whether or not resolution
succeeds; when resolution fails the canonical node is a RuntimeError
with UnrecognizedConstant and the problem is recorded, but the
constraint stays the Lookup and is not degraded to CTrue. -/
theorem claim_C10_var_constraint_is_lookup :
    ∀ (fp : String → Option FloatVal) (recF : CanonFn) (env : Env) (subs : Subs) (scope : Scope)
      (region : Nat) (module_parts : List String) (name : String) (expected : Expected),
      (∀ sym references,
        resolve_ident env scope (Ident.new module_parts name) References.new =
          (.ok sym, references) →
        canonicalize_step fp recF env subs scope region (AstExpr.Var module_parts name) expected =
          .ok ((⟨region, Expr.Var subs sym⟩,
            { references := references, tail_call := none,
              constraint :=
                Constraint.Lookup (SymId.from_parts module_parts name) expected region }),
            env, subs + 1))
      ∧ (∀ bad references,
        resolve_ident env scope (Ident.new module_parts name) References.new =
          (.error bad, references) →
        canonicalize_step fp recF env subs scope region (AstExpr.Var module_parts name) expected =
          .ok ((⟨region, Expr.RuntimeError (RuntimeError.UnrecognizedConstant ⟨region, bad⟩)⟩,
            { references := references, tail_call := none,
              constraint :=
                Constraint.Lookup (SymId.from_parts module_parts name) expected region }),
            env.problem (Problem.UnrecognizedConstant ⟨region, bad⟩), subs)) := by
  intro fp recF env subs scope region module_parts name expected
  constructor
  · intro sym references h
    simp [canonicalize_step, Output.new, h, mkFlexVar]
  · intro bad references h
    simp [canonicalize_step, Output.new, h, mkFlexVar]

/-- Witness for claim C10: an in-scope reference g resolves to its local
symbol with the Lookup constraint, and an out-of-scope reference h
degrades to UnrecognizedConstant while keeping the Lookup constraint. -/
theorem claim_C10_var_constraint_is_lookup_witness :
    canonicalize_step (fun _ => none) (canonicalize_expr (fun _ => none) 1) ⟨("Main"), [], []⟩ 3
      ⟨("Main$ex$"), [(Ident.unqualified ("g"), ("Main$ex$g"), 0)]⟩ 6 (AstExpr.Var [] ("g"))
      (Expected.NoExpectation (Ty.var 9)) =
      .ok ((⟨6, Expr.Var 3 ("Main$ex$g")⟩,
        { references := ⟨[("Main$ex$g")], [], []⟩, tail_call := none,
          constraint := Constraint.Lookup ("g") (Expected.NoExpectation (Ty.var 9)) 6 }),
        ⟨("Main"), [], []⟩, 4)
    ∧ canonicalize_step (fun _ => none) (canonicalize_expr (fun _ => none) 1) ⟨("Main"), [], []⟩ 3
      ⟨("Main$ex$"), []⟩ 6 (AstExpr.Var [] ("h"))
      (Expected.NoExpectation (Ty.var 9)) =
      .ok ((⟨6, Expr.RuntimeError
          (RuntimeError.UnrecognizedConstant ⟨6, Ident.unqualified ("h")⟩)⟩,
        { references := References.new, tail_call := none,
          constraint := Constraint.Lookup ("h") (Expected.NoExpectation (Ty.var 9)) 6 }),
        Env.problem ⟨("Main"), [], []⟩
          (Problem.UnrecognizedConstant ⟨6, Ident.unqualified ("h")⟩), 3) := by
  constructor
  · exact (claim_C10_var_constraint_is_lookup (fun _ => none) (canonicalize_expr (fun _ => none) 1)
      ⟨("Main"), [], []⟩ 3 ⟨("Main$ex$"), [(Ident.unqualified ("g"), ("Main$ex$g"), 0)]⟩ 6
      [] ("g") (Expected.NoExpectation (Ty.var 9))).1 ("Main$ex$g") ⟨[("Main$ex$g")], [], []⟩ rfl
  · exact (claim_C10_var_constraint_is_lookup (fun _ => none) (canonicalize_expr (fun _ => none) 1)
      ⟨("Main"), [], []⟩ 3 ⟨("Main$ex$"), []⟩ 6
      [] ("h") (Expected.NoExpectation (Ty.var 9))).2 (Ident.unqualified ("h")) References.new rfl
